import Mathlib

/-!
Shallow embedding of the custom allocator in `Main.c` (my_malloc, my_free,
my_calloc, my_realloc, my_malloc_stats) and proofs about it.

Modelling conventions:
* `size_t` arithmetic is `Nat` reduced mod `W = 2^64` exactly where the C
  program computes in `size_t` (sums, differences, products of sizes).
* A heap block header (`struct block_type`) is a record `Block` with its
  machine address `addr`, its payload `size`, and its `free` flag.  The
  doubly-linked `next`/`prev` chain of the C program is represented by the
  order of the list `Heap.blocks` (the program only ever inserts a split
  remainder right after its parent and appends fresh arena blocks at the
  tail, so the list order is the chain order).
* `sizeofBlock = 32` is `sizeof(Block)` on an LP64 platform
  (8-byte `size_t`, 4-byte `unsigned int` + padding, two 8-byte pointers).
* `sbrk` is modelled by the current break pointer `Heap.brk`; the flag
  `sbrkOk` says whether the OS grants the request (`sbrk` not returning -1).
* The split branch of `my_malloc` writes `size`, `prev`, `next` of the
  remainder block but never its `free` field; the unknown leftover bit is
  passed in as the parameter `g`.
* User memory is a byte map `Nat → Nat`; only `my_calloc` (zero fill) and
  `my_realloc` (memcpy) touch it, exactly as in the C program.
-/

/-- The modulus `2^64` of `size_t` arithmetic. -/
def W : Nat := 2 ^ 64

/-- The constant `#define ALIGNMENT 8` from Main.c. -/
def ALIGNMENT : Nat := 8

/-- The value of `sizeof(Block)` on LP64 (see module docstring). -/
def sizeofBlock : Nat := 32

/-- Wrap-around `size_t` subtraction `a - b`, for `a < W`. -/
def wsub (a b : Nat) : Nat := (a + W - b % W) % W

/-- The macro `#define ALIGN(size) (((size) + (ALIGNMENT - 1)) & ~(ALIGNMENT - 1))`
in `size_t` arithmetic: add 7 mod `2^64`, then clear the low three bits. -/
def ALIGN (size : Nat) : Nat :=
  ((size + 7) % W) - ((size + 7) % W) % 8

/-- The `struct block_type` header of Main.c: payload size, free flag, and
(via the position in `Heap.blocks`) the `next`/`prev` links.  `addr` is the
machine address of the header, tracked because the program computes split
addresses and payload pointers by pointer arithmetic. -/
structure Block where
  addr : Nat
  size : Nat
  free : Bool
deriving Repr, DecidableEq, Inhabited

/-- Default block used with `List.getD` (reads through an invalid pointer
are undefined behaviour in the C program; the claims never rely on it). -/
def d0 : Block := ⟨0, 0, false⟩

/-- Allocator state: the chain of blocks reachable from the global `head`
(in chain order, which the program keeps equal to address order), the break
pointer, and the address of the header the global `last` points to (`none`
= NULL).  `last` is written only by `my_malloc`'s arena-growth path; it is
NOT updated when `my_free`'s backward merge absorbs the tail block or when
a split adds a new tail, so it can go stale. -/
structure Heap where
  blocks : List Block
  brk : Nat
  last : Option Nat
deriving Repr, DecidableEq

/-- First-fit search loop of `my_malloc` (Main.c lines 76-104).  Walks the
list; on the first block with `free == 1 && size >= aligned` it marks the
block used and, if `size >= aligned + sizeof(Block) + ALIGNMENT`, splices a
remainder block right after it at address `addr + sizeof(Block) + aligned`
with size `size - aligned - sizeof(Block)`.  Faithful to the source, the
found block's `size` is NOT shrunk and the remainder's `free` field is NOT
written (it keeps the unspecified value `g`).  Returns the new list, the
index of the satisfied block and the payload pointer `addr + sizeof(Block)`. -/
def mallocFit (g : Bool) (aligned : Nat) : List Block → Option (List Block × Nat × Nat)
  | [] => none
  | b :: rest =>
    if b.free = true ∧ aligned ≤ b.size then
      if (aligned + sizeofBlock + ALIGNMENT) % W ≤ b.size then
        some (⟨b.addr, b.size, false⟩ ::
                ⟨b.addr + sizeofBlock + aligned, wsub (wsub b.size aligned) sizeofBlock, g⟩ ::
                rest,
              0, b.addr + sizeofBlock)
      else
        some (⟨b.addr, b.size, false⟩ :: rest, 0, b.addr + sizeofBlock)
    else
      match mallocFit g aligned rest with
      | none => none
      | some (l', i, p) => some (b :: l', i + 1, p)

/-- Effect of `last->next = allocated_block` (Main.c line 131) on the head
chain: walk the chain for the block whose header address is `a`; when
found, its `next` now points to `nb`, so the new chain keeps everything up
to and including that block, then `nb` (blocks that followed it become
unreachable from `head`).  When no chain block sits at `a` (the global
`last` is stale, its old header absorbed into a predecessor's payload) the
write lands outside the chain and the chain is unchanged: `none`.
Returns the new chain and the index of `nb` in it. -/
def linkAfterLast (a : Nat) (nb : Block) : List Block → Option (List Block × Nat)
  | [] => none
  | b :: rest =>
    if b.addr = a then some ([b, nb], 1)
    else
      match linkAfterLast a nb rest with
      | none => none
      | some (l', i) => some (b :: l', i + 1)

/-- Function `my_malloc` (Main.c lines 66-138): align the request, try first fit,
otherwise `sbrk(aligned + sizeof(Block))` and link a fresh used block into
the list.  The source links it after the global `last` (lines 130-132):
when the chain is empty, head and last are set to the new block; otherwise
`last->next = new` redirects the chain at whatever block `last` designates
(see `linkAfterLast`) — if `last` is stale and its address is no longer a
chain header, the new block ends up orphaned from the head chain (the
chain the searches traverse is unchanged) though its payload pointer is
still returned.  `last = none` with a non-empty chain would be a NULL
dereference in C (unreachable from the initial state); it is modelled as
the same chain-unchanged orphan outcome.  Result: `none` on failure,
otherwise the new heap, the chain index of the block whose payload is
returned (`none` when it is orphaned), and the payload pointer. -/
def my_malloc (g sbrkOk : Bool) (h : Heap) (size : Nat) : Option (Heap × Option Nat × Nat) :=
  let aligned := ALIGN size
  match mallocFit g aligned h.blocks with
  | some (l', i, p) => some (⟨l', h.brk, h.last⟩, some i, p)
  | none =>
    if sbrkOk then
      let nb : Block := ⟨h.brk, aligned, false⟩
      let brk2 := h.brk + (aligned + sizeofBlock) % W
      if h.blocks = [] then some (⟨[nb], brk2, some h.brk⟩, some 0, h.brk + sizeofBlock)
      else
        match h.last with
        | some a =>
          match linkAfterLast a nb h.blocks with
          | some (l', i) => some (⟨l', brk2, some h.brk⟩, some i, h.brk + sizeofBlock)
          | none => some (⟨h.blocks, brk2, some h.brk⟩, none, h.brk + sizeofBlock)
        | none => some (⟨h.blocks, brk2, some h.brk⟩, none, h.brk + sizeofBlock)
    else none

/-- Does `a` point at the final block of the chain (and at no earlier
block, so that the `last->next` write extends the chain at its tail)? -/
def lastPointsTail (a : Nat) : List Block → Bool
  | [] => false
  | [b] => b.addr == a
  | b :: rest => (b.addr != a) && lastPointsTail a rest

/-- The allocator's global `last` pointer is in its intended state: the
chain is empty (head == NULL, the growth path then re-establishes both),
or `last` designates the final chain block.  Holds initially and after
plain appends; broken by `my_free`'s tail merges and by tail splits. -/
def lastValid (h : Heap) : Bool :=
  h.blocks.isEmpty ||
    (match h.last with
     | some a => lastPointsTail a h.blocks
     | none => false)

/-- Forward-coalescing loop of `my_free` (Main.c lines 168-178): while the
next block is free, add `sizeof(Block) + next.size` to the current block's
size and unlink the absorbed block. -/
def fwdAbsorb : Block → List Block → Block × List Block
  | b, [] => (b, [])
  | b, c :: rest =>
    if c.free = true then
      fwdAbsorb ⟨b.addr, (b.size + (sizeofBlock + c.size) % W) % W, b.free⟩ rest
    else (b, c :: rest)

/-- Backward-coalescing loop of `my_free` (Main.c lines 183-196): while the
previous block is free, fold the current block into it (the predecessor adds
`sizeof(Block) + current.size` to its size and takes over the links).
The first argument is the reversed list of blocks before the current one. -/
def bwdAbsorb : List Block → Block → List Block × Block
  | [], b => ([], b)
  | p :: rest, b =>
    if p.free = true then
      bwdAbsorb rest ⟨p.addr, (p.size + (sizeofBlock + b.size) % W) % W, p.free⟩
    else (p :: rest, b)

/-- Function `my_free` on the block list, the freed block given by its index
(the payload pointer `blocks[i].addr + sizeof(Block)` in the C program):
mark the block free, then coalesce forward and backward. -/
def freeAt (l : List Block) (i : Nat) : List Block :=
  if i < l.length then
    let fa := fwdAbsorb ⟨(l.getD i d0).addr, (l.getD i d0).size, true⟩ (l.drop (i + 1))
    let ba := bwdAbsorb (l.take i).reverse fa.1
    ba.1.reverse ++ ba.2 :: fa.2
  else l

/-- Function `my_free` (Main.c lines 155-201) as a heap transformer.  The
global `last` is NOT updated, even when the backward merge absorbs the
block it points to. -/
def my_free (h : Heap) (i : Nat) : Heap := ⟨freeAt h.blocks i, h.brk, h.last⟩

/-- The zero-fill loop of `my_calloc` (Main.c lines 245-249):
`for (i = 0; i < n; i++) ptr[i] = 0` on the byte map. -/
def zeroLoop (mem : Nat → Nat) (p : Nat) : Nat → (Nat → Nat)
  | 0 => mem
  | n + 1 => Function.update (zeroLoop mem p n) (p + n) 0

/-- The call `memcpy(dst, src, n)` on the byte map (used by `my_realloc`). -/
def memcpyFn (mem : Nat → Nat) (dst src : Nat) : Nat → (Nat → Nat)
  | 0 => mem
  | n + 1 => Function.update (memcpyFn mem dst src n) (dst + n) (mem (src + n))

/-- Function `my_calloc` (Main.c lines 220-254): reject zero count/size, compute
`Total_size = size * value` in `size_t`, reject if `Total_size / value !=
size` (overflow), delegate to `my_malloc`, zero `Total_size` bytes.
Returns the heap, the byte map, and the payload pointer (`none` = NULL). -/
def my_calloc (g sbrkOk : Bool) (h : Heap) (mem : Nat → Nat) (value size : Nat) :
    Heap × (Nat → Nat) × Option Nat :=
  if size = 0 ∨ value = 0 then (h, mem, none)
  else
    let total := (size * value) % W
    if total / value ≠ size then (h, mem, none)
    else
      match my_malloc g sbrkOk h total with
      | none => (h, mem, none)
      | some (h', _, p) => (h', zeroLoop mem p total, some p)

/-- Outcome of `my_realloc`, separating the three NULL returns of the C
code by the diagnostic printed: `nullOk` (size 0: block freed, no error),
`mallocNull` (NULL input, inner `my_malloc` failed), `growNull` (grow path,
`"realoc error"`), `invalidNull` (final else, `"invalid ptr"`). -/
inductive RResult where
  | ok (p : Nat)
  | nullOk
  | mallocNull
  | growNull
  | invalidNull
deriving Repr, DecidableEq

/-- Function `my_realloc` (Main.c lines 273-343).  NULL pointer: delegate to
`my_malloc(size)`.  `size == 0`: free and return NULL.  Otherwise compare
the block's size with the aligned request: shrink in place (splitting off a
free remainder when at least `sizeof(Block) + ALIGNMENT` bytes are left
over, and setting `size` to the aligned request — this split, unlike the
one in `my_malloc`, does write `free = 1` and does shrink the block); or
grow by allocating, `memcpy`ing `current->size` bytes and freeing the old
block; the final `else` prints `"invalid ptr"`.  The pointer argument is
the block index (`none` = NULL); the freed block in the grow path is found
again by its address, as the C code's pointer does. -/
def my_realloc (g sbrkOk : Bool) (h : Heap) (mem : Nat → Nat) (p : Option Nat) (size : Nat) :
    Heap × (Nat → Nat) × RResult :=
  let aligned := ALIGN size
  match p with
  | none =>
    match my_malloc g sbrkOk h size with
    | some (h', _, q) => (h', mem, .ok q)
    | none => (h, mem, .mallocNull)
  | some i =>
    if size = 0 then (my_free h i, mem, .nullOk)
    else
      let cur := h.blocks.getD i d0
      if aligned ≤ cur.size then
        let blocks' :=
          if (aligned + sizeofBlock + ALIGNMENT) % W ≤ cur.size then
            h.blocks.take i ++ ⟨cur.addr, aligned, cur.free⟩ ::
              ⟨cur.addr + sizeofBlock + aligned, wsub (wsub cur.size aligned) sizeofBlock, true⟩ ::
              h.blocks.drop (i + 1)
          else
            h.blocks.take i ++ ⟨cur.addr, aligned, cur.free⟩ :: h.blocks.drop (i + 1)
        (⟨blocks', h.brk, h.last⟩, mem, .ok (cur.addr + sizeofBlock))
      else if cur.size < aligned then
        match my_malloc g sbrkOk h aligned with
        | none => (h, mem, .growNull)
        | some (h', _, q) =>
          let k := h'.blocks.findIdx (fun b => b.addr == cur.addr)
          let n := (h'.blocks.getD k d0).size
          (⟨freeAt h'.blocks k, h'.brk, h'.last⟩, memcpyFn mem q (cur.addr + sizeofBlock) n, .ok q)
      else (h, mem, .invalidNull)

/-- The five counters of `my_malloc_stats` (Main.c lines 356-417). -/
structure MStats where
  total_blocks : Nat
  used_blocks : Nat
  free_blocks : Nat
  used_bytes : Nat
  free_bytes : Nat
deriving Repr, DecidableEq

/-- The traversal loop of `my_malloc_stats` (Main.c lines 372-388).
Faithful to the source: `used_bytes = current->size` and
`free_bytes = current->size` are plain assignments (last write wins),
not accumulating sums. -/
def statsLoop : List Block → MStats → MStats
  | [], s => s
  | b :: rest, s =>
    if b.free = false then
      statsLoop rest { s with
        total_blocks := s.total_blocks + 1
        used_blocks := s.used_blocks + 1
        used_bytes := b.size }
    else
      statsLoop rest { s with
        total_blocks := s.total_blocks + 1
        free_blocks := s.free_blocks + 1
        free_bytes := b.size }

/-- Function `my_malloc_stats`: the counters, plus whether the fragmentation figure
is printed (the code prints it when `used_bytes + free_bytes > 0`,
otherwise prints `N/A`). -/
def my_malloc_stats (h : Heap) : MStats × Bool :=
  let s := statsLoop h.blocks ⟨0, 0, 0, 0, 0⟩
  (s, decide (0 < s.used_bytes + s.free_bytes))

/-- Modelled from the spec (sect. 4.6): the used-byte total as the SUM of
`size` over all used blocks — the contract the spec states for the stats
reporter, to be compared with what the code computes. -/
def specUsedBytes (l : List Block) : Nat :=
  ((l.filter fun b => b.free = false).map fun b => b.size).sum

/-- Modelled from the spec (sect. 4.6): the free-byte total as the SUM of
`size` over all free blocks. -/
def specFreeBytes (l : List Block) : Nat :=
  ((l.filter fun b => b.free = true).map fun b => b.size).sum

/-- No two adjacent blocks of the list are simultaneously free
(the coalescing invariant of sect. 4.3 / claim C2). -/
abbrev noAdjFree (l : List Block) : Prop :=
  l.Chain' fun a b => (a.free && b.free) = false

/-- Total number of bytes occupied by the heap (headers plus payloads);
bounding it by `W` says the arena fits in the address space. -/
def listBytes (l : List Block) : Nat :=
  (l.map fun b => sizeofBlock + b.size).sum

/-- Is the left neighbour of block `i` free (after block `i` itself was
marked free)?  Decides whether backward coalescing absorbs it. -/
def prevFree (l : List Block) (i : Nat) : Bool :=
  decide (0 < i) && (l.getD (i - 1) d0).free

/-- Is the right neighbour of block `i` free? -/
def nextFree (l : List Block) (i : Nat) : Bool :=
  decide (i + 1 < l.length) && (l.getD (i + 1) d0).free

/-- First index of the maximal free run around block `i` once block `i` is
marked free, in a list with no two adjacent free blocks. -/
def runLo (l : List Block) (i : Nat) : Nat :=
  if prevFree l i then i - 1 else i

/-- One past the last index of the maximal free run around block `i`. -/
def runHi (l : List Block) (i : Nat) : Nat :=
  if nextFree l i then i + 2 else i + 1

/-- Payload size of the block obtained by merging the maximal free run
around block `i`: the run's payload sizes plus one reclaimed header per
absorbed block. -/
def runSize (l : List Block) (i : Nat) : Nat :=
  (if prevFree l i then (l.getD (i - 1) d0).size + sizeofBlock else 0) +
    (l.getD i d0).size +
    (if nextFree l i then sizeofBlock + (l.getD (i + 1) d0).size else 0)

/-- Constant byte map used in concrete witnesses (every byte 37). -/
def memC : Nat → Nat := fun _ => 37

lemma W_pos : 0 < W := by norm_num [W]

lemma eight_dvd_W : 8 ∣ W := by norm_num [W]

lemma ALIGN_mod8 (s : Nat) : ALIGN s % 8 = 0 := by
  unfold ALIGN
  omega

lemma ALIGN_lt_W (s : Nat) : ALIGN s < W := by
  unfold ALIGN
  have h1 : (s + 7) % W < W := Nat.mod_lt _ W_pos
  omega

lemma ALIGN_le (s : Nat) : ALIGN s ≤ W - 8 := by
  have h1 := ALIGN_mod8 s
  have h2 := ALIGN_lt_W s
  have h3 : W = 8 * 2305843009213693952 := by norm_num [W]
  omega

lemma ALIGN_idem (s : Nat) : ALIGN (ALIGN s) = ALIGN s := by
  have h1 := ALIGN_mod8 s
  have h2 := ALIGN_le s
  have h3 : W = 8 * 2305843009213693952 := by norm_num [W]
  have h4 : ALIGN s + 7 < W := by omega
  have h5 : (ALIGN s + 7) % W = ALIGN s + 7 := Nat.mod_eq_of_lt h4
  show ((ALIGN s + 7) % W) - ((ALIGN s + 7) % W) % 8 = ALIGN s
  rw [h5]
  omega

lemma ALIGN_zero : ALIGN 0 = 0 := by decide

/-- If no block of the list is free, the first-fit search fails. -/
lemma mallocFit_none_of_used (g : Bool) (a : Nat) (l : List Block)
    (hl : ∀ b ∈ l, b.free = false) : mallocFit g a l = none := by
  induction l with
  | nil => rfl
  | cons b rest ih =>
    have hb : b.free = false := hl b (by simp)
    have hrest : mallocFit g a rest = none := ih fun c hc => hl c (by simp [hc])
    simp [mallocFit, hb, hrest]

/-- Claim C1 (code-bug evidence).  On a heap whose single block is free
with capacity 64 (reachable by `my_malloc(64)` followed by `my_free`), the
call `my_malloc(8)` takes the split branch (64 is at least
8 + sizeof(Block) + 8 = 48) and splices in the remainder block of size
64 - 8 - 32 = 24 at address 40 — but, contrary to the claim, the satisfied
block's `size` stays 64 instead of being shrunk to the aligned request
`ALIGN 8 = 8`, and the remainder block's `free` field is never written (the
result carries whatever garbage bit `g` stood in the payload bytes, shown
here for both values of `g`). -/
theorem c1_malloc_split_does_not_shrink :
    my_malloc true true ⟨[⟨0, 64, true⟩], 96, some 0⟩ 8 =
      some (⟨[⟨0, 64, false⟩, ⟨40, 24, true⟩], 96, some 0⟩, some 0, 32) ∧
    my_malloc false true ⟨[⟨0, 64, true⟩], 96, some 0⟩ 8 =
      some (⟨[⟨0, 64, false⟩, ⟨40, 24, false⟩], 96, some 0⟩, some 0, 32) ∧
    ALIGN 8 = 8 := by
  refine ⟨by decide, by decide, by decide⟩

/-- Claim C3 (code-bug evidence).  On the block list
`[used 16, free 16, used 16, free 32]` the stats reporter of the source
records `used_bytes = 16` and `free_bytes = 32` — the size of the LAST
block of each state, because the loop body assigns instead of summing —
while the totals the claim (and spec sect. 4.6) demand are the sums 32
and 48. -/
theorem c3_stats_not_summed :
    (my_malloc_stats ⟨[⟨0, 16, false⟩, ⟨48, 16, true⟩, ⟨96, 16, false⟩, ⟨144, 32, true⟩], 208,
        some 144⟩).1 =
      ⟨4, 2, 2, 16, 32⟩ ∧
    specUsedBytes [⟨0, 16, false⟩, ⟨48, 16, true⟩, ⟨96, 16, false⟩, ⟨144, 32, true⟩] = 32 ∧
    specFreeBytes [⟨0, 16, false⟩, ⟨48, 16, true⟩, ⟨96, 16, false⟩, ⟨144, 32, true⟩] = 48 ∧
    (16 : Nat) ≠ 32 ∧ (32 : Nat) ≠ 48 := by
  refine ⟨by decide, by decide, by decide, by decide, by decide⟩

/-- Claim C7: `my_calloc` returns NULL leaving the heap untouched (and in
particular never reaches the call to `my_malloc`) whenever the count is 0,
the element size is 0, or the `size_t` product wraps, which the code
detects by `Total_size / value != size`. -/
theorem c7_calloc_rejects (g sbrkOk : Bool) (h : Heap) (mem : Nat → Nat) (value size : Nat)
    (hbad : value = 0 ∨ size = 0 ∨ (size * value) % W / value ≠ size) :
    my_calloc g sbrkOk h mem value size = (h, mem, none) := by
  by_cases hz : size = 0 ∨ value = 0
  · simp [my_calloc, hz]
  · push_neg at hz
    have hov : (size * value) % W / value ≠ size := by
      rcases hbad with h1 | h2 | h3
      · exact absurd h1 hz.2
      · exact absurd h2 hz.1
      · exact h3
    simp [my_calloc, hz.1, hz.2, hov]

/-- Witness for C7: `count = 2^32`, `elemSize = 2^33`; the product is
`2^65`, which wraps to 0 in `size_t`, and `0 / 2^32 = 0 ≠ 2^33`. -/
theorem c7_calloc_rejects_witness :
    ((2 : Nat)^32 = 0 ∨ (2 : Nat)^33 = 0 ∨ ((2^33) * (2^32)) % W / (2^32) ≠ (2 : Nat)^33) ∧
    my_calloc true true ⟨[], 0, none⟩ memC (2^32) (2^33) = (⟨[], 0, none⟩, memC, none) :=
  ⟨Or.inr (Or.inr (by decide)), c7_calloc_rejects true true ⟨[], 0, none⟩ memC (2^32) (2^33)
    (Or.inr (Or.inr (by decide)))⟩

/-- Claim C9: the final `"invalid ptr"` branch of `my_realloc` is dead
code: for every pointer (null or not), every size and every heap, the two
`size_t` comparisons `current->size >= aligned` and `current->size <
aligned` are exhaustive, so the result is never the `invalidNull` outcome. -/
theorem c9_realloc_invalid_unreachable (g sbrkOk : Bool) (h : Heap) (mem : Nat → Nat)
    (p : Option Nat) (size : Nat) :
    (my_realloc g sbrkOk h mem p size).2.2 ≠ RResult.invalidNull := by
  unfold my_realloc
  cases p with
  | none =>
    cases hm : my_malloc g sbrkOk h size with
    | none => simp [hm]
    | some r => obtain ⟨h', i, q⟩ := r; simp [hm]
  | some i =>
    by_cases hs : size = 0
    · simp [hs]
    · simp only [if_neg hs]
      by_cases h1 : ALIGN size ≤ (h.blocks.getD i d0).size
      · rw [if_pos h1]
        simp
      · have h2 : (h.blocks.getD i d0).size < ALIGN size := by omega
        rw [if_neg h1, if_pos h2]
        cases hm : my_malloc g sbrkOk h (ALIGN size) with
        | none => simp
        | some r => obtain ⟨h', i', q⟩ := r; simp

/-- Claim C6: when `my_realloc` must grow (the aligned new size exceeds the
block's size) and the fresh allocation fails (no free block fits the
aligned size and the OS refuses to extend the arena), the call returns the
`"realoc error"` NULL outcome and the whole state — block list, break
pointer and payload bytes — is exactly as before: the original block is
still in the list, unfreed, with its size and contents unchanged. -/
theorem c6_realloc_grow_failure_intact (g : Bool) (h : Heap) (mem : Nat → Nat) (i s : Nat)
    (hi : i < h.blocks.length)
    (hgrow : (h.blocks.getD i d0).size < ALIGN s)
    (hfit : mallocFit g (ALIGN s) h.blocks = none) :
    my_realloc g false h mem (some i) s = (h, mem, RResult.growNull) := by
  have hs : s ≠ 0 := by
    intro h0
    rw [h0, ALIGN_zero] at hgrow
    omega
  have hmal : my_malloc g false h (ALIGN s) = none := by
    unfold my_malloc
    simp only [ALIGN_idem, hfit]
    rfl
  unfold my_realloc
  simp only [if_neg hs]
  have h1 : ¬ ALIGN s ≤ (h.blocks.getD i d0).size := by omega
  rw [if_neg h1, if_pos hgrow, hmal]

/-- Witness for C6: heap with the single used block of capacity 8,
`my_realloc(ptr, 16)` with the OS refusing to grow the arena. -/
theorem c6_realloc_grow_failure_intact_witness :
    (0 < 1 ∧ (8 : Nat) < ALIGN 16 ∧
      mallocFit true (ALIGN 16) [⟨0, 8, false⟩] = none) ∧
    my_realloc true false ⟨[⟨0, 8, false⟩], 40, some 0⟩ memC (some 0) 16 =
      (⟨[⟨0, 8, false⟩], 40, some 0⟩, memC, RResult.growNull) :=
  ⟨⟨by decide, by decide, by decide⟩,
   c6_realloc_grow_failure_intact true ⟨[⟨0, 8, false⟩], 40, some 0⟩ memC 0 16
     (by decide) (by decide) (by decide)⟩

/-- With an aligned request of 0 every free block fits, so the first-fit
search succeeds as soon as any free block exists. -/
lemma mallocFit_zero_some (g : Bool) (l : List Block)
    (hl : ∃ b ∈ l, b.free = true) : ∃ r, mallocFit g 0 l = some r := by
  induction l with
  | nil => simp at hl
  | cons b rest ih =>
    by_cases hb : b.free = true
    · have hguard : b.free = true ∧ 0 ≤ b.size := ⟨hb, Nat.zero_le _⟩
      unfold mallocFit
      rw [if_pos hguard]
      by_cases hsplit : (0 + sizeofBlock + ALIGNMENT) % W ≤ b.size
      · rw [if_pos hsplit]; exact ⟨_, rfl⟩
      · rw [if_neg hsplit]; exact ⟨_, rfl⟩
    · have hrest : ∃ c ∈ rest, c.free = true := by
        obtain ⟨c, hc, hcf⟩ := hl
        rcases List.mem_cons.mp hc with rfl | hm
        · exact absurd hcf hb
        · exact ⟨c, hm, hcf⟩
      obtain ⟨r, hr⟩ := ih hrest
      have hguard : ¬ (b.free = true ∧ 0 ≤ b.size) := fun hc => hb hc.1
      unfold mallocFit
      rw [if_neg hguard, hr]
      exact ⟨_, rfl⟩

/-- Unfolding of `my_malloc` when first fit succeeds. -/
lemma my_malloc_eq_fit (g ok : Bool) (h : Heap) (s : Nat) (l' : List Block) (i p : Nat)
    (hfit : mallocFit g (ALIGN s) h.blocks = some (l', i, p)) :
    my_malloc g ok h s = some (⟨l', h.brk, h.last⟩, some i, p) := by
  unfold my_malloc
  simp only [hfit]

/-- Unfolding of `my_malloc` on the growth path with an empty chain
(head == NULL): head and last are (re)established at the new block. -/
lemma my_malloc_eq_sbrk_empty (g : Bool) (h : Heap) (s : Nat)
    (hfit : mallocFit g (ALIGN s) h.blocks = none) (hempty : h.blocks = []) :
    my_malloc g true h s =
      some (⟨[⟨h.brk, ALIGN s, false⟩], h.brk + (ALIGN s + sizeofBlock) % W, some h.brk⟩,
            some 0, h.brk + sizeofBlock) := by
  unfold my_malloc
  simp only [hfit, hempty]
  rfl

/-- Unfolding of `my_malloc` on the growth path when `last` designates a
chain block: the chain is redirected there. -/
lemma my_malloc_eq_sbrk_link (g : Bool) (h : Heap) (s a : Nat) (l' : List Block) (i : Nat)
    (hfit : mallocFit g (ALIGN s) h.blocks = none) (hempty : ¬ h.blocks = [])
    (hlast : h.last = some a)
    (hlink : linkAfterLast a ⟨h.brk, ALIGN s, false⟩ h.blocks = some (l', i)) :
    my_malloc g true h s =
      some (⟨l', h.brk + (ALIGN s + sizeofBlock) % W, some h.brk⟩,
            some i, h.brk + sizeofBlock) := by
  unfold my_malloc
  simp [hfit, hempty, hlast, hlink]

/-- Unfolding of `my_malloc` on the growth path when `last` is stale (its
address is no longer a chain header): the new block is orphaned. -/
lemma my_malloc_eq_sbrk_orphan (g : Bool) (h : Heap) (s a : Nat)
    (hfit : mallocFit g (ALIGN s) h.blocks = none) (hempty : ¬ h.blocks = [])
    (hlast : h.last = some a)
    (hlink : linkAfterLast a ⟨h.brk, ALIGN s, false⟩ h.blocks = none) :
    my_malloc g true h s =
      some (⟨h.blocks, h.brk + (ALIGN s + sizeofBlock) % W, some h.brk⟩,
            none, h.brk + sizeofBlock) := by
  unfold my_malloc
  simp [hfit, hempty, hlast, hlink]

/-- Unfolding of `my_malloc` on the growth path with a NULL `last` and a
non-empty chain (a NULL dereference in C, unreachable from the initial
state; modelled as the orphan outcome). -/
lemma my_malloc_eq_sbrk_nolast (g : Bool) (h : Heap) (s : Nat)
    (hfit : mallocFit g (ALIGN s) h.blocks = none) (hempty : ¬ h.blocks = [])
    (hlast : h.last = none) :
    my_malloc g true h s =
      some (⟨h.blocks, h.brk + (ALIGN s + sizeofBlock) % W, some h.brk⟩,
            none, h.brk + sizeofBlock) := by
  unfold my_malloc
  simp [hfit, hempty, hlast]

/-- When `last` designates the final chain block, the `last->next` write
appends the new block at the tail. -/
lemma linkAfterLast_of_tail (a : Nat) (nb : Block) (l : List Block)
    (h : lastPointsTail a l = true) :
    linkAfterLast a nb l = some (l ++ [nb], l.length) := by
  induction l with
  | nil => simp [lastPointsTail] at h
  | cons b rest ih =>
    cases rest with
    | nil =>
      have hb : b.addr = a := by simpa [lastPointsTail] using h
      simp [linkAfterLast, hb]
    | cons c t =>
      have h2 : ¬ b.addr = a ∧ lastPointsTail a (c :: t) = true := by
        simpa [lastPointsTail] using h
      unfold linkAfterLast
      rw [if_neg h2.1, ih h2.2]
      simp [List.length_cons]

/-- Unfolding of `my_malloc` on the growth path when the global `last` is
in its intended state: the new block is appended at the tail. -/
lemma my_malloc_eq_sbrk (g : Bool) (h : Heap) (s : Nat)
    (hfit : mallocFit g (ALIGN s) h.blocks = none) (hlv : lastValid h = true) :
    my_malloc g true h s =
      some (⟨h.blocks ++ [⟨h.brk, ALIGN s, false⟩],
             h.brk + (ALIGN s + sizeofBlock) % W, some h.brk⟩,
            some h.blocks.length, h.brk + sizeofBlock) := by
  by_cases hempty : h.blocks = []
  · rw [my_malloc_eq_sbrk_empty g h s hfit hempty]
    simp [hempty]
  · have hie : h.blocks.isEmpty = false := by
      rw [Bool.eq_false_iff]
      intro hc
      exact hempty (List.isEmpty_iff.mp hc)
    rw [lastValid, hie] at hlv
    simp only [Bool.false_or] at hlv
    cases hlast : h.last with
    | none =>
      rw [hlast] at hlv
      simp at hlv
    | some a =>
      rw [hlast] at hlv
      have hlink := linkAfterLast_of_tail a ⟨h.brk, ALIGN s, false⟩ h.blocks hlv
      rw [my_malloc_eq_sbrk_link g h s a (h.blocks ++ [⟨h.brk, ALIGN s, false⟩])
        h.blocks.length hfit hempty hlast hlink]

/-- With the OS granting every request, `my_malloc` never returns NULL. -/
lemma my_malloc_ok_isSome (g : Bool) (h : Heap) (s : Nat) :
    ∃ r, my_malloc g true h s = some r := by
  cases hfit : mallocFit g (ALIGN s) h.blocks with
  | some r =>
    obtain ⟨l', i, p⟩ := r
    exact ⟨_, my_malloc_eq_fit g true h s l' i p hfit⟩
  | none =>
    by_cases hempty : h.blocks = []
    · exact ⟨_, my_malloc_eq_sbrk_empty g h s hfit hempty⟩
    · cases hlast : h.last with
      | none => exact ⟨_, my_malloc_eq_sbrk_nolast g h s hfit hempty hlast⟩
      | some a =>
        cases hlink : linkAfterLast a ⟨h.brk, ALIGN s, false⟩ h.blocks with
        | none => exact ⟨_, my_malloc_eq_sbrk_orphan g h s a hfit hempty hlast hlink⟩
        | some r =>
          obtain ⟨l', i⟩ := r
          exact ⟨_, my_malloc_eq_sbrk_link g h s a l' i hfit hempty hlast hlink⟩

/-- Claim C10: a zero-byte request is not rejected by `my_malloc`: the
aligned size is 0, any free block satisfies the search, and otherwise a
zero-capacity block costing one header of arena growth is appended, so the
call returns a non-null pointer whenever a free block exists or `sbrk`
succeeds — in contrast to `my_calloc`, which returns NULL whenever the
count or the element size is 0. -/
theorem c10_malloc_zero_not_rejected (g sbrkOk : Bool) (h : Heap) (mem : Nat → Nat) (v k : Nat)
    (hsucc : (∃ b ∈ h.blocks, b.free = true) ∨ sbrkOk = true) :
    ALIGN 0 = 0 ∧
    (∃ r, my_malloc g sbrkOk h 0 = some r) ∧
    ((∀ b ∈ h.blocks, b.free = false) → sbrkOk = true → lastValid h = true →
      my_malloc g sbrkOk h 0 =
        some (⟨h.blocks ++ [⟨h.brk, 0, false⟩], h.brk + sizeofBlock, some h.brk⟩,
              some h.blocks.length, h.brk + sizeofBlock)) ∧
    my_calloc g sbrkOk h mem v 0 = (h, mem, none) ∧
    my_calloc g sbrkOk h mem 0 k = (h, mem, none) := by
  refine ⟨ALIGN_zero, ?_, ?_, by simp [my_calloc], by simp [my_calloc]⟩
  · rcases hsucc with hfree | hok
    · obtain ⟨r, hr⟩ := mallocFit_zero_some g h.blocks hfree
      obtain ⟨l', i, p⟩ := r
      exact ⟨_, my_malloc_eq_fit g sbrkOk h 0 l' i p (by rw [ALIGN_zero]; exact hr)⟩
    · subst hok
      exact my_malloc_ok_isSome g h 0
  · intro hused hok hlv
    subst hok
    have hm : mallocFit g (ALIGN 0) h.blocks = none := by
      rw [ALIGN_zero]
      exact mallocFit_none_of_used g 0 h.blocks hused
    have heq := my_malloc_eq_sbrk g h 0 hm hlv
    rw [ALIGN_zero] at heq
    have h32 : (0 + sizeofBlock) % W = sizeofBlock := by decide
    rw [h32] at heq
    exact heq

/-- Witness for C10: empty heap, `sbrk` succeeding. -/
theorem c10_malloc_zero_not_rejected_witness :
    ((∃ b ∈ ([] : List Block), b.free = true) ∨ true = true) ∧
    (ALIGN 0 = 0 ∧
      (∃ r, my_malloc true true ⟨[], 0, none⟩ 0 = some r) ∧
      ((∀ b ∈ ([] : List Block), b.free = false) → true = true →
        lastValid ⟨[], 0, none⟩ = true →
        my_malloc true true ⟨[], 0, none⟩ 0 =
          some (⟨[] ++ [⟨0, 0, false⟩], 0 + sizeofBlock, some 0⟩,
                some (List.length ([] : List Block)), 0 + sizeofBlock)) ∧
      my_calloc true true ⟨[], 0, none⟩ memC 5 0 = (⟨[], 0, none⟩, memC, none) ∧
      my_calloc true true ⟨[], 0, none⟩ memC 0 7 = (⟨[], 0, none⟩, memC, none)) :=
  ⟨Or.inr rfl, c10_malloc_zero_not_rejected true true ⟨[], 0, none⟩ memC 5 7 (Or.inr rfl)⟩

/-- Every byte the zero-fill loop wrote reads back as 0. -/
lemma zeroLoop_read (mem : Nat → Nat) (p : Nat) :
    ∀ n j, j < n → zeroLoop mem p n (p + j) = 0 := by
  intro n
  induction n with
  | zero => intro j hj; omega
  | succ n ih =>
    intro j hj
    by_cases hjn : j = n
    · subst hjn
      simp [zeroLoop]
    · have hlt : j < n := by omega
      simp only [zeroLoop]
      rw [Function.update_noteq (by omega)]
      exact ih j hlt

/-- Claim C8: for a count and element size whose `size_t` product does not
overflow and for which the underlying `my_malloc` succeeds, `my_calloc`
returns the (non-null) pointer produced by `my_malloc` and every one of the
`n * k` bytes of the returned region reads as zero. -/
theorem c8_calloc_zero_fills (g sbrkOk : Bool) (h : Heap) (mem : Nat → Nat) (n k : Nat)
    (h' : Heap) (oi : Option Nat) (p : Nat)
    (hn : 0 < n) (hk : 0 < k) (hov : k * n < W)
    (hmal : my_malloc g sbrkOk h ((k * n) % W) = some (h', oi, p)) :
    my_calloc g sbrkOk h mem n k = (h', zeroLoop mem p ((k * n) % W), some p) ∧
    ∀ j, j < n * k → zeroLoop mem p ((k * n) % W) (p + j) = 0 := by
  have hz : ¬ (k = 0 ∨ n = 0) := by omega
  have hmod : (k * n) % W = k * n := Nat.mod_eq_of_lt hov
  have hdiv : ¬ ((k * n) % W / n ≠ k) := by
    rw [hmod, Nat.mul_div_cancel _ hn]
    simp
  constructor
  · simp only [my_calloc]
    rw [if_neg hz]
    simp only [if_neg hdiv]
    rw [hmal]
  · intro j hj
    have hcomm : n * k = k * n := Nat.mul_comm n k
    exact zeroLoop_read mem p _ j (by omega)

/-- Witness for C8: `my_calloc(2, 3)` from the empty heap zero-fills the
6-byte region at payload address 32. -/
theorem c8_calloc_zero_fills_witness :
    (0 < 2 ∧ 0 < 3 ∧ 3 * 2 < W ∧
      my_malloc true true ⟨[], 0, none⟩ ((3 * 2) % W) =
        some (⟨[⟨0, 8, false⟩], 40, some 0⟩, some 0, 32)) ∧
    (my_calloc true true ⟨[], 0, none⟩ memC 2 3 =
        (⟨[⟨0, 8, false⟩], 40, some 0⟩, zeroLoop memC 32 ((3 * 2) % W), some 32) ∧
      ∀ j, j < 2 * 3 → zeroLoop memC 32 ((3 * 2) % W) (32 + j) = 0) :=
  ⟨⟨by decide, by decide, by norm_num [W], by decide⟩,
   c8_calloc_zero_fills true true ⟨[], 0, none⟩ memC 2 3 ⟨[⟨0, 8, false⟩], 40, some 0⟩ (some 0) 32
     (by decide) (by decide) (by norm_num [W]) (by decide)⟩

lemma getD_append_length (l : List Block) (x : Block) :
    (l ++ [x]).getD l.length d0 = x := by
  induction l with
  | nil => rfl
  | cons b t ih => simpa using ih

lemma take_len_append (l m : List Block) : (l ++ m).take l.length = l := by
  induction l with
  | nil => rfl
  | cons b t ih => simpa using ih

lemma drop_len_succ_append_single (l : List Block) (x : Block) :
    (l ++ [x]).drop (l.length + 1) = [] := by
  induction l with
  | nil => rfl
  | cons b t ih => simpa using ih

/-- First fit walks over a prefix of used blocks untouched: the result on
`l ++ m` is the result on `m`, shifted past `l`. -/
lemma mallocFit_append_used (g : Bool) (a : Nat) (l m m' : List Block) (i p : Nat)
    (hl : ∀ b ∈ l, b.free = false)
    (hm : mallocFit g a m = some (m', i, p)) :
    mallocFit g a (l ++ m) = some (l ++ m', l.length + i, p) := by
  induction l with
  | nil => simpa using hm
  | cons b t ih =>
    have hb : b.free = false := hl b (by simp)
    have ht : mallocFit g a (t ++ m) = some (t ++ m', t.length + i, p) :=
      ih fun c hc => hl c (by simp [hc])
    have hguard : ¬ (b.free = true ∧ a ≤ b.size) := by simp [hb]
    show mallocFit g a (b :: (t ++ m)) = _
    unfold mallocFit
    rw [if_neg hguard, ht]
    show some (b :: (t ++ m'), t.length + i + 1, p) = _
    rw [Nat.add_right_comm t.length i 1]
    rfl

/-- Freeing the tail block of a heap whose other blocks are all used just
marks it free: no coalescing happens. -/
lemma freeAt_append_last (l : List Block) (blk : Block)
    (hl : ∀ b ∈ l, b.free = false) :
    freeAt (l ++ [blk]) l.length = l ++ [⟨blk.addr, blk.size, true⟩] := by
  unfold freeAt
  have hlen : l.length < (l ++ [blk]).length := by simp
  rw [if_pos hlen]
  have hget : (l ++ [blk]).getD l.length d0 = blk := getD_append_length l blk
  have hdrop : (l ++ [blk]).drop (l.length + 1) = [] := drop_len_succ_append_single l blk
  have htake : (l ++ [blk]).take l.length = l := take_len_append l [blk]
  rw [hget, hdrop, htake]
  have hbwd : bwdAbsorb l.reverse ⟨blk.addr, blk.size, true⟩ =
      (l.reverse, ⟨blk.addr, blk.size, true⟩) := by
    cases hrev : l.reverse with
    | nil => rfl
    | cons x xs =>
      have hx : x ∈ l := by
        rw [← List.mem_reverse, hrev]
        simp
      have hxf : x.free = false := hl x hx
      unfold bwdAbsorb
      rw [if_neg (by simp [hxf])]
  simp only [fwdAbsorb, hbwd]
  simp

/-- Claim C5, amended.  First part: the concrete scenario — allocate A (16
bytes), allocate B (16 bytes), free A, allocate C (16 bytes) from the
initial empty heap — makes C reuse A's block (same index 0, same payload
pointer 32, unchanged break pointer: no arena growth), with capacity
16 = ALIGN 16.  Second part: the general reuse law, valid when the heap
holds no free block before the first allocation AND the global `last`
pointer is in its intended state (`lastValid`), so that the growth path
actually appends the new block at the chain tail: then Allocate(s), Free
of that block, Allocate(s) — with no intervening allocations — returns the
same pointer to the same block, whose capacity is exactly `ALIGN s`.
Both provisos are necessary: without the first, the first Allocate may
reuse a strictly larger free block without splitting; without the second,
a stale `last` (reachable, because `my_free` never updates `last`) orphans
the new block from the head chain and a different pointer comes back —
see the counterexample. -/
theorem c5_reuse_after_free (g : Bool) (h : Heap) (s : Nat)
    (hnf : ∀ b ∈ h.blocks, b.free = false)
    (hlv : lastValid h = true)
    (hs : ALIGN s + sizeofBlock + ALIGNMENT < W) :
    (my_malloc false true ⟨[], 0, none⟩ 16 =
        some (⟨[⟨0, 16, false⟩], 48, some 0⟩, some 0, 32) ∧
      my_malloc false true ⟨[⟨0, 16, false⟩], 48, some 0⟩ 16 =
        some (⟨[⟨0, 16, false⟩, ⟨48, 16, false⟩], 96, some 48⟩, some 1, 80) ∧
      my_free ⟨[⟨0, 16, false⟩, ⟨48, 16, false⟩], 96, some 48⟩ 0 =
        ⟨[⟨0, 16, true⟩, ⟨48, 16, false⟩], 96, some 48⟩ ∧
      my_malloc false true ⟨[⟨0, 16, true⟩, ⟨48, 16, false⟩], 96, some 48⟩ 16 =
        some (⟨[⟨0, 16, false⟩, ⟨48, 16, false⟩], 96, some 48⟩, some 0, 32)) ∧
    (my_malloc g true h s =
        some (⟨h.blocks ++ [⟨h.brk, ALIGN s, false⟩],
               h.brk + (ALIGN s + sizeofBlock) % W, some h.brk⟩,
              some h.blocks.length, h.brk + sizeofBlock) ∧
      my_free ⟨h.blocks ++ [⟨h.brk, ALIGN s, false⟩],
               h.brk + (ALIGN s + sizeofBlock) % W, some h.brk⟩ h.blocks.length =
        ⟨h.blocks ++ [⟨h.brk, ALIGN s, true⟩],
         h.brk + (ALIGN s + sizeofBlock) % W, some h.brk⟩ ∧
      my_malloc g true ⟨h.blocks ++ [⟨h.brk, ALIGN s, true⟩],
          h.brk + (ALIGN s + sizeofBlock) % W, some h.brk⟩ s =
        some (⟨h.blocks ++ [⟨h.brk, ALIGN s, false⟩],
               h.brk + (ALIGN s + sizeofBlock) % W, some h.brk⟩,
              some h.blocks.length, h.brk + sizeofBlock)) := by
  refine ⟨⟨by decide, by decide, by decide, by decide⟩, ?_, ?_, ?_⟩
  · exact my_malloc_eq_sbrk g h s (mallocFit_none_of_used g (ALIGN s) h.blocks hnf) hlv
  · show Heap.mk (freeAt (h.blocks ++ [⟨h.brk, ALIGN s, false⟩]) h.blocks.length) _ _ = _
    rw [freeAt_append_last h.blocks ⟨h.brk, ALIGN s, false⟩ hnf]
  · have hsingle : mallocFit g (ALIGN s) [⟨h.brk, ALIGN s, true⟩] =
        some ([⟨h.brk, ALIGN s, false⟩], 0, h.brk + sizeofBlock) := by
      have hguard : (⟨h.brk, ALIGN s, true⟩ : Block).free = true ∧
          ALIGN s ≤ (⟨h.brk, ALIGN s, true⟩ : Block).size := ⟨rfl, Nat.le_refl _⟩
      have hmod : (ALIGN s + sizeofBlock + ALIGNMENT) % W = ALIGN s + sizeofBlock + ALIGNMENT :=
        Nat.mod_eq_of_lt hs
      have hsplit : ¬ (ALIGN s + sizeofBlock + ALIGNMENT) % W ≤
          (⟨h.brk, ALIGN s, true⟩ : Block).size := by
        rw [hmod]
        show ¬ ALIGN s + sizeofBlock + ALIGNMENT ≤ ALIGN s
        simp only [sizeofBlock, ALIGNMENT]
        omega
      unfold mallocFit
      rw [if_pos hguard, if_neg hsplit]
    have happ := mallocFit_append_used g (ALIGN s) h.blocks [⟨h.brk, ALIGN s, true⟩]
      [⟨h.brk, ALIGN s, false⟩] 0 (h.brk + sizeofBlock) hnf hsingle
    rw [Nat.add_zero] at happ
    exact my_malloc_eq_fit g true
      ⟨h.blocks ++ [⟨h.brk, ALIGN s, true⟩], h.brk + (ALIGN s + sizeofBlock) % W, some h.brk⟩
      s (h.blocks ++ [⟨h.brk, ALIGN s, false⟩]) h.blocks.length (h.brk + sizeofBlock) happ

/-- Counterexample for claim C5 as stated: two reachable failure modes.
Part (a): on the heap holding a single free block of capacity 24 (obtained
by `my_malloc(24)`; `my_free`), Allocate(16), Free, Allocate(16) returns a
block of capacity 24, not the first allocation's aligned size
`ALIGN 16 = 16`: first fit reuses the larger block without splitting
(24 < 16 + sizeof(Block) + 8), so the capacity is inherited.
Part (b), the stale-`last` trace: malloc(16), malloc(16), free both — the
backward merge absorbs the tail block into its neighbour, leaving the
global `last` pointing at the absorbed header inside the merged block's
payload — then malloc(64) (the chain is now all-used and `lastValid` is
false).  From that state Allocate(16) grows the arena but the
`last->next = new` write lands outside the chain: the new block is
orphaned (chain unchanged, chain index `none`).  The C `free` of that
pointer likewise only mutates the orphan header outside the chain, so the
following Allocate(16) walks the same all-used chain, grows the arena
again, and returns pointer 176 ≠ 128 — not the same pointer and not the
same block. -/
theorem c5_reuse_after_free_counterexample :
    (my_malloc true true ⟨[⟨0, 24, true⟩], 56, some 0⟩ 16 =
        some (⟨[⟨0, 24, false⟩], 56, some 0⟩, some 0, 32) ∧
      my_free ⟨[⟨0, 24, false⟩], 56, some 0⟩ 0 = ⟨[⟨0, 24, true⟩], 56, some 0⟩ ∧
      my_malloc true true ⟨[⟨0, 24, true⟩], 56, some 0⟩ 16 =
        some (⟨[⟨0, 24, false⟩], 56, some 0⟩, some 0, 32) ∧
      ALIGN 16 = 16 ∧ (24 : Nat) ≠ 16) ∧
    (my_malloc false true ⟨[], 0, none⟩ 16 =
        some (⟨[⟨0, 16, false⟩], 48, some 0⟩, some 0, 32) ∧
      my_malloc false true ⟨[⟨0, 16, false⟩], 48, some 0⟩ 16 =
        some (⟨[⟨0, 16, false⟩, ⟨48, 16, false⟩], 96, some 48⟩, some 1, 80) ∧
      my_free ⟨[⟨0, 16, false⟩, ⟨48, 16, false⟩], 96, some 48⟩ 0 =
        ⟨[⟨0, 16, true⟩, ⟨48, 16, false⟩], 96, some 48⟩ ∧
      my_free ⟨[⟨0, 16, true⟩, ⟨48, 16, false⟩], 96, some 48⟩ 1 =
        ⟨[⟨0, 64, true⟩], 96, some 48⟩ ∧
      my_malloc false true ⟨[⟨0, 64, true⟩], 96, some 48⟩ 64 =
        some (⟨[⟨0, 64, false⟩], 96, some 48⟩, some 0, 32) ∧
      lastValid ⟨[⟨0, 64, false⟩], 96, some 48⟩ = false ∧
      my_malloc false true ⟨[⟨0, 64, false⟩], 96, some 48⟩ 16 =
        some (⟨[⟨0, 64, false⟩], 144, some 96⟩, none, 128) ∧
      my_malloc false true ⟨[⟨0, 64, false⟩], 144, some 96⟩ 16 =
        some (⟨[⟨0, 64, false⟩], 192, some 144⟩, none, 176) ∧
      (176 : Nat) ≠ 128) := by
  refine ⟨⟨by decide, by decide, by decide, by decide, by decide⟩,
    by decide, by decide, by decide, by decide, by decide, by decide, by decide, by decide,
    by decide⟩

/-- Witness for the amended C5: heap with one used block and a valid
`last`, request 16. -/
theorem c5_reuse_after_free_witness :
    ((∀ b ∈ [(⟨0, 8, false⟩ : Block)], b.free = false) ∧
      lastValid ⟨[⟨0, 8, false⟩], 40, some 0⟩ = true ∧
      ALIGN 16 + sizeofBlock + ALIGNMENT < W) ∧
    my_malloc false true ⟨[⟨0, 8, false⟩], 40, some 0⟩ 16 =
      some (⟨[(⟨0, 8, false⟩ : Block)] ++ [⟨40, ALIGN 16, false⟩],
             40 + (ALIGN 16 + sizeofBlock) % W, some 40⟩,
            some (List.length [(⟨0, 8, false⟩ : Block)]), 40 + sizeofBlock) :=
  ⟨⟨by decide, by decide, by norm_num [ALIGN, W, sizeofBlock, ALIGNMENT]⟩,
   (c5_reuse_after_free false ⟨[⟨0, 8, false⟩], 40, some 0⟩ 16 (by decide) (by decide)
     (by norm_num [ALIGN, W, sizeofBlock, ALIGNMENT])).2.1⟩

/-- Closed form of `freeAt` on a valid index. -/
lemma freeAt_eq (l : List Block) (i : Nat) (hi : i < l.length) :
    freeAt l i =
      (bwdAbsorb (l.take i).reverse
        (fwdAbsorb ⟨(l.getD i d0).addr, (l.getD i d0).size, true⟩ (l.drop (i + 1))).1).1.reverse ++
      (bwdAbsorb (l.take i).reverse
        (fwdAbsorb ⟨(l.getD i d0).addr, (l.getD i d0).size, true⟩ (l.drop (i + 1))).1).2 ::
      (fwdAbsorb ⟨(l.getD i d0).addr, (l.getD i d0).size, true⟩ (l.drop (i + 1))).2 := by
  unfold freeAt
  rw [if_pos hi]

lemma drop_eq_getD_cons (l : List Block) (j : Nat) (hj : j < l.length) :
    l.drop j = l.getD j d0 :: l.drop (j + 1) := by
  rw [List.getD_eq_getElem l d0 hj]
  exact List.drop_eq_getElem_cons hj

lemma take_eq_concat_getD (l : List Block) (j : Nat) (hj : j < l.length) :
    l.take (j + 1) = l.take j ++ [l.getD j d0] := by
  rw [List.getD_eq_getElem l d0 hj, List.take_succ]
  rw [List.getElem?_eq_getElem hj]
  rfl

lemma listBytes_append (a b : List Block) : listBytes (a ++ b) = listBytes a + listBytes b := by
  simp [listBytes]

lemma listBytes_cons (x : Block) (t : List Block) :
    listBytes (x :: t) = (sizeofBlock + x.size) + listBytes t := by
  simp [listBytes]

/-- In a list with no two adjacent free blocks, the right neighbour of a
free block is used. -/
lemma noAdjFree_next (l : List Block) (hadj : noAdjFree l) (j : Nat)
    (hj : j + 1 < l.length) (hf : (l.getD j d0).free = true) :
    (l.getD (j + 1) d0).free = false := by
  have hpair := List.chain'_iff_get.mp hadj j (by omega)
  rw [List.getD_eq_getElem l d0 (by omega)] at hf
  rw [List.getD_eq_getElem l d0 hj]
  simp only [List.get_eq_getElem] at hpair
  rw [hf] at hpair
  simpa using hpair

/-- In a list with no two adjacent free blocks, the left neighbour of a
free block is used. -/
lemma noAdjFree_prev (l : List Block) (hadj : noAdjFree l) (j : Nat)
    (hj : j + 1 < l.length) (hf : (l.getD (j + 1) d0).free = true) :
    (l.getD j d0).free = false := by
  have hpair := List.chain'_iff_get.mp hadj j (by omega)
  rw [List.getD_eq_getElem l d0 hj] at hf
  rw [List.getD_eq_getElem l d0 (by omega)]
  simp only [List.get_eq_getElem] at hpair
  rw [hf] at hpair
  simpa using hpair

lemma fwdAbsorb_nil (b : Block) : fwdAbsorb b [] = (b, []) := rfl

lemma fwdAbsorb_stop (b c : Block) (t : List Block) (hc : c.free = false) :
    fwdAbsorb b (c :: t) = (b, c :: t) := by
  unfold fwdAbsorb
  rw [if_neg (by simp [hc])]

lemma fwdAbsorb_step (b c : Block) (t : List Block) (hc : c.free = true) :
    fwdAbsorb b (c :: t) =
      fwdAbsorb ⟨b.addr, (b.size + (sizeofBlock + c.size) % W) % W, b.free⟩ t := by
  conv_lhs => unfold fwdAbsorb
  rw [if_pos hc]

lemma bwdAbsorb_nil (b : Block) : bwdAbsorb [] b = ([], b) := rfl

lemma bwdAbsorb_stop (p b : Block) (t : List Block) (hp : p.free = false) :
    bwdAbsorb (p :: t) b = (p :: t, b) := by
  unfold bwdAbsorb
  rw [if_neg (by simp [hp])]

lemma bwdAbsorb_step (p b : Block) (t : List Block) (hp : p.free = true) :
    bwdAbsorb (p :: t) b =
      bwdAbsorb t ⟨p.addr, (p.size + (sizeofBlock + b.size) % W) % W, p.free⟩ := by
  conv_lhs => unfold bwdAbsorb
  rw [if_pos hp]

/-- The forward loop does not move past position `j` when the heap ends
there or the block there is used. -/
lemma fwdAbsorb_boundary (l : List Block) (j : Nat) (b : Block)
    (hstop : l.length ≤ j ∨ (l.getD j d0).free = false) :
    fwdAbsorb b (l.drop j) = (b, l.drop j) := by
  by_cases hj : j < l.length
  · rcases hstop with h1 | h2
    · omega
    · rw [drop_eq_getD_cons l j hj]
      exact fwdAbsorb_stop b _ _ h2
  · rw [List.drop_eq_nil_of_le (by omega)]
    exact fwdAbsorb_nil b

/-- The backward loop does not move before position `j` when the heap
starts there or the block at `j - 1` is used. -/
lemma bwdAbsorb_boundary (l : List Block) (j : Nat) (b : Block)
    (hstop : j = 0 ∨ (l.getD (j - 1) d0).free = false) (hj : j ≤ l.length) :
    bwdAbsorb (l.take j).reverse b = ((l.take j).reverse, b) := by
  rcases hstop with rfl | h2
  · simp [bwdAbsorb]
  · rcases Nat.eq_zero_or_pos j with rfl | hpos
    · simp [bwdAbsorb]
    · obtain ⟨j', rfl⟩ : ∃ j', j = j' + 1 := ⟨j - 1, by omega⟩
      rw [take_eq_concat_getD l j' (by omega)]
      rw [List.reverse_append, List.reverse_singleton, List.singleton_append]
      exact bwdAbsorb_stop _ _ _ (by simpa using h2)

lemma getLast_take (l : List Block) (j : Nat) (hj0 : 0 < j) (hj : j ≤ l.length) :
    (l.take j).getLast? = some (l.getD (j - 1) d0) := by
  obtain ⟨j', rfl⟩ : ∃ j', j = j' + 1 := ⟨j - 1, by omega⟩
  rw [take_eq_concat_getD l j' (by omega)]
  simpa using List.getLast?_concat (l.take j')

/-- Gluing lemma for the no-adjacent-free invariant around one inserted
free block. -/
lemma noAdjFree_assemble (A B : List Block) (m : Block)
    (hA : noAdjFree A) (hB : noAdjFree B)
    (hAm : ∀ x, A.getLast? = some x → x.free = false)
    (hmB : ∀ y, B.head? = some y → y.free = false) :
    noAdjFree (A ++ m :: B) := by
  refine List.Chain'.append hA (List.chain'_cons'.mpr ⟨?_, hB⟩) ?_
  · intro y hy
    have := hmB y hy
    simp [this]
  · intro x hx y hy
    simp only [List.head?_cons, Option.mem_def, Option.some.injEq] at hy
    subst hy
    have := hAm x hx
    simp [this]

lemma getD_of_le (l : List Block) (j : Nat) (hj : l.length ≤ j) : l.getD j d0 = d0 := by
  rw [List.getD_eq_getD_get?, List.get?_eq_none.mpr (by omega)]
  rfl

lemma getLast_take_cases (l : List Block) (j : Nat) (hj : j ≤ l.length)
    (hused : j = 0 ∨ (l.getD (j - 1) d0).free = false) :
    ∀ x, (l.take j).getLast? = some x → x.free = false := by
  intro x hx
  rcases hused with rfl | h2
  · simp at hx
  · rcases Nat.eq_zero_or_pos j with rfl | hpos
    · simp at hx
    · rw [getLast_take l j hpos hj] at hx
      simp only [Option.some.injEq] at hx
      rw [← hx]
      exact h2

lemma head_drop_cases (l : List Block) (k : Nat)
    (hused : l.length ≤ k ∨ (l.getD k d0).free = false) :
    ∀ y, (l.drop k).head? = some y → y.free = false := by
  intro y hy
  by_cases hk : k < l.length
  · rcases hused with h1 | h2
    · omega
    · rw [drop_eq_getD_cons l k hk] at hy
      simp only [List.head?_cons, Option.some.injEq] at hy
      rw [← hy]
      exact h2
  · rw [List.drop_eq_nil_of_le (by omega)] at hy
    simp at hy

lemma listBytes_le_one (l : List Block) (j : Nat) (hj : j < l.length) :
    sizeofBlock + (l.getD j d0).size ≤ listBytes l := by
  have hdec : l = l.take j ++ (l.getD j d0 :: l.drop (j + 1)) := by
    conv_lhs => rw [← List.take_append_drop j l]
    rw [drop_eq_getD_cons l j hj]
  have hb := congrArg listBytes hdec
  rw [listBytes_append, listBytes_cons] at hb
  omega

lemma listBytes_le_two (l : List Block) (j : Nat) (hj : j + 1 < l.length) :
    (sizeofBlock + (l.getD j d0).size) + (sizeofBlock + (l.getD (j + 1) d0).size) ≤
      listBytes l := by
  have hdec : l = l.take j ++ (l.getD j d0 :: (l.getD (j + 1) d0 :: l.drop (j + 2))) := by
    conv_lhs => rw [← List.take_append_drop j l]
    rw [drop_eq_getD_cons l j (by omega), drop_eq_getD_cons l (j + 1) hj]
  have hb := congrArg listBytes hdec
  rw [listBytes_append, listBytes_cons, listBytes_cons] at hb
  omega

lemma listBytes_le_three (l : List Block) (j : Nat) (hj : j + 2 < l.length) :
    (sizeofBlock + (l.getD j d0).size) + (sizeofBlock + (l.getD (j + 1) d0).size) +
      (sizeofBlock + (l.getD (j + 2) d0).size) ≤ listBytes l := by
  have hdec : l = l.take j ++
      (l.getD j d0 :: (l.getD (j + 1) d0 :: (l.getD (j + 2) d0 :: l.drop (j + 3)))) := by
    conv_lhs => rw [← List.take_append_drop j l]
    rw [drop_eq_getD_cons l j (by omega), drop_eq_getD_cons l (j + 1) (by omega),
      drop_eq_getD_cons l (j + 2) hj]
  have hb := congrArg listBytes hdec
  rw [listBytes_append, listBytes_cons, listBytes_cons, listBytes_cons] at hb
  omega

/-- Evaluation of the forward-coalescing loop under the no-adjacent-free
invariant: it absorbs the right neighbour exactly when that neighbour
exists and is free, and stops there. -/
lemma fwd_phase (l : List Block) (i : Nat) (hadj : noAdjFree l)
    (hov : nextFree l i = true →
      (l.getD i d0).size + (sizeofBlock + (l.getD (i + 1) d0).size) < W) :
    fwdAbsorb ⟨(l.getD i d0).addr, (l.getD i d0).size, true⟩ (l.drop (i + 1)) =
      (⟨(l.getD i d0).addr,
        (if nextFree l i then (l.getD i d0).size + (sizeofBlock + (l.getD (i + 1) d0).size)
         else (l.getD i d0).size), true⟩,
       l.drop (runHi l i)) := by
  cases hnfB : nextFree l i with
  | false =>
    have hstop : l.length ≤ i + 1 ∨ (l.getD (i + 1) d0).free = false := by
      by_cases hlen : i + 1 < l.length
      · right
        simpa [nextFree, hlen] using hnfB
      · left
        omega
    have := fwdAbsorb_boundary l (i + 1)
      ⟨(l.getD i d0).addr, (l.getD i d0).size, true⟩ hstop
    rw [this]
    simp [runHi, hnfB]
  | true =>
    have hnf := hnfB
    simp only [nextFree, Bool.and_eq_true, decide_eq_true_eq] at hnf
    obtain ⟨hn1, hn2⟩ := hnf
    have hov2 := hov hnfB
    rw [drop_eq_getD_cons l (i + 1) hn1]
    rw [fwdAbsorb_step _ _ _ hn2]
    rw [Nat.mod_eq_of_lt (show sizeofBlock + (l.getD (i + 1) d0).size < W by omega)]
    rw [Nat.mod_eq_of_lt hov2]
    have hstop : l.length ≤ i + 2 ∨ (l.getD (i + 2) d0).free = false := by
      by_cases hlen : i + 2 < l.length
      · right
        exact noAdjFree_next l hadj (i + 1) (by omega) hn2
      · left
        omega
    have := fwdAbsorb_boundary l (i + 2)
      ⟨(l.getD i d0).addr, (l.getD i d0).size + (sizeofBlock + (l.getD (i + 1) d0).size),
        true⟩ hstop
    rw [this]
    simp [runHi, hnfB]

/-- Evaluation of the backward-coalescing loop under the no-adjacent-free
invariant: it folds the (already forward-merged) block into the left
neighbour exactly when that neighbour exists and is free, and stops there. -/
lemma bwd_phase (l : List Block) (i : Nat) (hi : i < l.length) (hadj : noAdjFree l)
    (a sz : Nat)
    (hov : prevFree l i = true →
      (l.getD (i - 1) d0).size + (sizeofBlock + sz) < W) :
    bwdAbsorb (l.take i).reverse ⟨a, sz, true⟩ =
      ((l.take (runLo l i)).reverse,
       ⟨(if prevFree l i then (l.getD (i - 1) d0).addr else a),
        (if prevFree l i then (l.getD (i - 1) d0).size + (sizeofBlock + sz) else sz),
        true⟩) := by
  cases hpfB : prevFree l i with
  | false =>
    have hstop : i = 0 ∨ (l.getD (i - 1) d0).free = false := by
      rcases Nat.eq_zero_or_pos i with rfl | hpos
      · exact Or.inl rfl
      · right
        simpa [prevFree, hpos] using hpfB
    have := bwdAbsorb_boundary l i ⟨a, sz, true⟩ hstop (by omega)
    rw [this]
    simp [runLo, hpfB]
  | true =>
    have hpf := hpfB
    simp only [prevFree, Bool.and_eq_true, decide_eq_true_eq] at hpf
    obtain ⟨hp1, hp2⟩ := hpf
    have hov2 := hov hpfB
    have htk : l.take i = l.take (i - 1) ++ [l.getD (i - 1) d0] := by
      have := take_eq_concat_getD l (i - 1) (by omega)
      rwa [show i - 1 + 1 = i by omega] at this
    rw [htk, List.reverse_append, List.reverse_singleton, List.singleton_append]
    rw [bwdAbsorb_step _ _ _ hp2]
    rw [hp2]
    rw [Nat.mod_eq_of_lt (show sizeofBlock + sz < W by omega)]
    rw [Nat.mod_eq_of_lt hov2]
    have hstop : i - 1 = 0 ∨ (l.getD (i - 1 - 1) d0).free = false := by
      rcases Nat.eq_zero_or_pos (i - 1) with h0 | hpos
      · exact Or.inl h0
      · right
        have hfree : (l.getD (i - 2) d0).free = false := by
          refine noAdjFree_prev l hadj (i - 2) (by omega) ?_
          rw [show i - 2 + 1 = i - 1 by omega]
          exact hp2
        rwa [show i - 1 - 1 = i - 2 by omega]
    have := bwdAbsorb_boundary l (i - 1)
      ⟨(l.getD (i - 1) d0).addr, (l.getD (i - 1) d0).size + (sizeofBlock + sz), true⟩
      hstop (by omega)
    rw [this]
    simp [runLo, hpfB]

lemma runLo_stop (l : List Block) (i : Nat) (hadj : noAdjFree l) :
    runLo l i = 0 ∨ (l.getD (runLo l i - 1) d0).free = false := by
  cases hpfB : prevFree l i with
  | false =>
    rcases Nat.eq_zero_or_pos i with rfl | hpos
    · left
      simp [runLo, hpfB]
    · right
      have hfree : (l.getD (i - 1) d0).free = false := by
        simpa [prevFree, hpos] using hpfB
      simp only [runLo, hpfB, Bool.false_eq_true, if_false]
      -- goal about index i - 1; but the invariant constrains nothing here:
      -- with prevFree false the block left of the freed one is used.
      exact hfree
  | true =>
    have hpf := hpfB
    simp only [prevFree, Bool.and_eq_true, decide_eq_true_eq] at hpf
    obtain ⟨hp1, hp2⟩ := hpf
    have hlen1 : i - 1 < l.length := by
      by_contra hc
      rw [getD_of_le l (i - 1) (by omega)] at hp2
      simp [d0] at hp2
    rcases Nat.eq_zero_or_pos (i - 1) with h0 | hpos
    · left
      simp [runLo, hpfB, h0]
    · right
      simp only [runLo, hpfB, if_true]
      have hfree : (l.getD (i - 2) d0).free = false := by
        refine noAdjFree_prev l hadj (i - 2) (by omega) ?_
        rw [show i - 2 + 1 = i - 1 by omega]
        exact hp2
      rwa [show i - 1 - 1 = i - 2 by omega]

lemma runHi_stop (l : List Block) (i : Nat) (hadj : noAdjFree l) :
    l.length ≤ runHi l i ∨ (l.getD (runHi l i) d0).free = false := by
  cases hnfB : nextFree l i with
  | false =>
    by_cases hlen : i + 1 < l.length
    · right
      have hfree : (l.getD (i + 1) d0).free = false := by
        simpa [nextFree, hlen] using hnfB
      simpa [runHi, hnfB] using hfree
    · left
      simp only [runHi, hnfB, Bool.false_eq_true, if_false]
      omega
  | true =>
    have hnf := hnfB
    simp only [nextFree, Bool.and_eq_true, decide_eq_true_eq] at hnf
    obtain ⟨hn1, hn2⟩ := hnf
    by_cases hlen : i + 2 < l.length
    · right
      have hfree := noAdjFree_next l hadj (i + 1) (by omega) hn2
      simpa [runHi, hnfB] using hfree
    · left
      simp only [runHi, hnfB, if_true]
      omega

/-- Core of claim C2, on the block list: under the no-adjacent-free
invariant (and the heap fitting in the address space), freeing block `i`
produces exactly the list in which the maximal free run around `i` —
left neighbour if free, block `i`, right neighbour if free — has been
replaced by one free block carrying the absorbed sizes plus one reclaimed
header per absorbed block, and the invariant holds again afterwards. -/
lemma freeAt_coalesce (l : List Block) (i : Nat)
    (hi : i < l.length) (hadj : noAdjFree l) (hbnd : listBytes l < W) :
    freeAt l i =
      l.take (runLo l i) ++
        (⟨(l.getD (runLo l i) d0).addr, runSize l i, true⟩ : Block) :: l.drop (runHi l i) ∧
    noAdjFree (freeAt l i) := by
  have hov1 : nextFree l i = true →
      (l.getD i d0).size + (sizeofBlock + (l.getD (i + 1) d0).size) < W := by
    intro hnf
    simp only [nextFree, Bool.and_eq_true, decide_eq_true_eq] at hnf
    have h2 := listBytes_le_two l i hnf.1
    omega
  have hov2 : prevFree l i = true →
      (l.getD (i - 1) d0).size + (sizeofBlock +
        (if nextFree l i then (l.getD i d0).size + (sizeofBlock + (l.getD (i + 1) d0).size)
         else (l.getD i d0).size)) < W := by
    intro hpf
    simp only [prevFree, Bool.and_eq_true, decide_eq_true_eq] at hpf
    obtain ⟨hp1, hp2⟩ := hpf
    by_cases hnfB : nextFree l i = true
    · rw [if_pos hnfB]
      have hnf := hnfB
      simp only [nextFree, Bool.and_eq_true, decide_eq_true_eq] at hnf
      have h3 := listBytes_le_three l (i - 1) (by omega)
      rw [show i - 1 + 1 = i by omega, show i - 1 + 2 = i + 1 by omega] at h3
      omega
    · rw [if_neg hnfB]
      have h2 := listBytes_le_two l (i - 1) (by omega)
      rw [show i - 1 + 1 = i by omega] at h2
      omega
  have hfa := fwd_phase l i hadj hov1
  have hba := bwd_phase l i hi hadj (l.getD i d0).addr
      (if nextFree l i then (l.getD i d0).size + (sizeofBlock + (l.getD (i + 1) d0).size)
       else (l.getD i d0).size) hov2
  have hfa1 : (fwdAbsorb ⟨(l.getD i d0).addr, (l.getD i d0).size, true⟩ (l.drop (i + 1))).1 =
      ⟨(l.getD i d0).addr,
        (if nextFree l i then (l.getD i d0).size + (sizeofBlock + (l.getD (i + 1) d0).size)
         else (l.getD i d0).size), true⟩ := by
    rw [hfa]
  have hfa2 : (fwdAbsorb ⟨(l.getD i d0).addr, (l.getD i d0).size, true⟩ (l.drop (i + 1))).2 =
      l.drop (runHi l i) := by
    rw [hfa]
  have hba1 : (bwdAbsorb (l.take i).reverse
      ⟨(l.getD i d0).addr,
        (if nextFree l i then (l.getD i d0).size + (sizeofBlock + (l.getD (i + 1) d0).size)
         else (l.getD i d0).size), true⟩).1 = (l.take (runLo l i)).reverse := by
    rw [hba]
  have hba2 : (bwdAbsorb (l.take i).reverse
      ⟨(l.getD i d0).addr,
        (if nextFree l i then (l.getD i d0).size + (sizeofBlock + (l.getD (i + 1) d0).size)
         else (l.getD i d0).size), true⟩).2 =
      ⟨(if prevFree l i then (l.getD (i - 1) d0).addr else (l.getD i d0).addr),
       (if prevFree l i then (l.getD (i - 1) d0).size + (sizeofBlock +
          (if nextFree l i then (l.getD i d0).size + (sizeofBlock + (l.getD (i + 1) d0).size)
           else (l.getD i d0).size))
        else (if nextFree l i then (l.getD i d0).size + (sizeofBlock + (l.getD (i + 1) d0).size)
           else (l.getD i d0).size)), true⟩ := by
    rw [hba]
  have haddr : (l.getD (runLo l i) d0).addr =
      (if prevFree l i then (l.getD (i - 1) d0).addr else (l.getD i d0).addr) := by
    cases hpfB : prevFree l i <;> simp [runLo, hpfB]
  have hsz : runSize l i =
      (if prevFree l i then (l.getD (i - 1) d0).size + (sizeofBlock +
          (if nextFree l i then (l.getD i d0).size + (sizeofBlock + (l.getD (i + 1) d0).size)
           else (l.getD i d0).size))
       else (if nextFree l i then (l.getD i d0).size + (sizeofBlock + (l.getD (i + 1) d0).size)
           else (l.getD i d0).size)) := by
    cases hpfB : prevFree l i <;> cases hnfB : nextFree l i <;>
      simp [runSize, hpfB, hnfB] <;> omega
  constructor
  · rw [freeAt_eq l i hi, hfa1, hfa2, hba1, hba2, List.reverse_reverse, haddr, hsz]
  · rw [freeAt_eq l i hi, hfa1, hfa2, hba1, hba2, List.reverse_reverse]
    refine noAdjFree_assemble _ _ _ (hadj.take _) (hadj.drop _) ?_ ?_
    · refine getLast_take_cases l (runLo l i) ?_ (runLo_stop l i hadj)
      cases hpfB : prevFree l i <;> simp [runLo, hpfB] <;> omega
    · exact head_drop_cases l (runHi l i) (runHi_stop l i hadj)

/-- Claim C2: for every valid pointer passed to Free on a heap satisfying
the no-adjacent-free invariant (and fitting in the address space), after
`my_free` returns the freed block — or the absorbing left neighbour when
backward merging occurred — spans the full maximal run of contiguous free
memory around the freed region (its size collects every absorbed
neighbour's payload plus the reclaimed headers, its address is the run's
first header), and no two adjacent entries of the resulting block list are
simultaneously free. -/
theorem c2_free_coalesces_maximal (h : Heap) (i : Nat)
    (hi : i < h.blocks.length) (hadj : noAdjFree h.blocks)
    (hbnd : listBytes h.blocks < W) :
    (my_free h i).blocks =
      h.blocks.take (runLo h.blocks i) ++
        (⟨(h.blocks.getD (runLo h.blocks i) d0).addr, runSize h.blocks i, true⟩ : Block) ::
        h.blocks.drop (runHi h.blocks i) ∧
    noAdjFree (my_free h i).blocks :=
  freeAt_coalesce h.blocks i hi hadj hbnd

/-- Witness for C2: freeing the middle block of `[used 16, used 16,
free 16]` absorbs the free right neighbour into one 64-byte free block. -/
theorem c2_free_coalesces_maximal_witness :
    (1 < List.length [(⟨0, 16, false⟩ : Block), ⟨48, 16, false⟩, ⟨96, 16, true⟩] ∧
      noAdjFree [(⟨0, 16, false⟩ : Block), ⟨48, 16, false⟩, ⟨96, 16, true⟩] ∧
      listBytes [(⟨0, 16, false⟩ : Block), ⟨48, 16, false⟩, ⟨96, 16, true⟩] < W) ∧
    ((my_free ⟨[⟨0, 16, false⟩, ⟨48, 16, false⟩, ⟨96, 16, true⟩], 144, some 96⟩ 1).blocks =
      [(⟨0, 16, false⟩ : Block), ⟨48, 16, false⟩, ⟨96, 16, true⟩].take
          (runLo [(⟨0, 16, false⟩ : Block), ⟨48, 16, false⟩, ⟨96, 16, true⟩] 1) ++
        (⟨([(⟨0, 16, false⟩ : Block), ⟨48, 16, false⟩, ⟨96, 16, true⟩].getD
            (runLo [(⟨0, 16, false⟩ : Block), ⟨48, 16, false⟩, ⟨96, 16, true⟩] 1) d0).addr,
          runSize [(⟨0, 16, false⟩ : Block), ⟨48, 16, false⟩, ⟨96, 16, true⟩] 1, true⟩ : Block) ::
        [(⟨0, 16, false⟩ : Block), ⟨48, 16, false⟩, ⟨96, 16, true⟩].drop
          (runHi [(⟨0, 16, false⟩ : Block), ⟨48, 16, false⟩, ⟨96, 16, true⟩] 1) ∧
      noAdjFree (my_free ⟨[⟨0, 16, false⟩, ⟨48, 16, false⟩, ⟨96, 16, true⟩], 144, some 96⟩ 1).blocks) :=
  ⟨⟨by decide, by simp, by decide⟩,
   c2_free_coalesces_maximal ⟨[⟨0, 16, false⟩, ⟨48, 16, false⟩, ⟨96, 16, true⟩], 144, some 96⟩ 1
     (by decide) (by simp) (by decide)⟩
